import Mathlib

/-!
Verification of the local-first content cache and synchronization engine
(services/sefaria.ts, services/backgroundSync.ts, services/migration.ts).

The TypeScript source is shallowly embedded: async functions become pure
Lean functions over an explicit environment (cache contents, network
reachability, network responses), fallible code returns `Except`, and
JavaScript timestamps are naturals counting milliseconds.
-/

namespace Rambam

/-- One passage record (interface HalakhaText): Hebrew text, optional
English translation, 1-based chapter number, and the first-in-chapter flag. -/
structure HalakhaText where
  he : String
  en : Option String
  chapter : Nat
  isFirstInChapter : Bool
deriving DecidableEq, Repr

/-- Which languages were successfully fetched (interface LanguagesLoaded). -/
structure LanguagesLoaded where
  he : Bool
  en : Bool
deriving DecidableEq, Repr

/-- The `text` field of a Sefaria text version: the API returns either a
single string, a flat array of strings (one chapter), or a nested array
(spanning several chapters). -/
inductive TextPayload where
  | single (s : String)
  | flat (l : List String)
  | nested (l : List (List String))
deriving DecidableEq, Repr

/-- interface SefariaTextVersion. -/
structure SefariaTextVersion where
  text : TextPayload
deriving DecidableEq, Repr

/-- interface SefariaTextResponse; `isSpanning` is optional in the source,
an absent field reads as `false` (JS truthiness). -/
structure SefariaTextResponse where
  versions : List SefariaTextVersion
  isSpanning : Bool
deriving DecidableEq, Repr

/-- JS Array.isArray on a (possibly undefined) payload: true exactly for
flat and nested arrays, false for strings and for undefined. -/
def payloadIsArray : Option TextPayload → Bool
  | some (.flat _) => true
  | some (.nested _) => true
  | _ => false

/-- The `as string[][]` cast on a payload the spanning branch iterates.
A non-nested payload would make the source throw a TypeError at the inner
forEach; the model returns the empty list there. -/
def asNestedD : Option TextPayload → List (List String)
  | some (.nested l) => l
  | _ => []

/-- The `as string[][] | undefined` cast used for per-language lookups. -/
def asNested? : TextPayload → Option (List (List String))
  | .nested l => some l
  | _ => none

/-- The `as string[]` cast in the single-chapter branch (non-flat payloads
would be ill-typed at runtime in the source; the model reads them as empty). -/
def asFlatD : Option TextPayload → List String
  | some (.flat l) => l
  | _ => []

/-- The `as string[] | undefined` cast used for per-language lookups. -/
def asFlat? : TextPayload → Option (List String)
  | .flat l => some l
  | _ => none

/-- The `as string` cast in the single-passage branch. -/
def asSingle? : TextPayload → Option String
  | .single s => some s
  | _ => none

/-- The spanning-branch loop of processTextResponse: walks the structural
chapters carrying the 0-based chapter index and the running passage index
(`currentIndex`); pushes a chapter break (the current passage index) before
every chapter after the first, and one passage per structural slot, with
per-language safe lookups defaulting Hebrew to the empty string. -/
def spanGo (heC enC : Option (List (List String))) :
    Nat → Nat → List (List String) → List HalakhaText × List Nat
  | _, _, [] => ([], [])
  | chapterNum, cur, ch :: rest =>
    let passages := (List.range ch.length).map fun idx =>
      { he := ((heC.bind fun l => l.get? chapterNum).bind fun l => l.get? idx).getD ""
        en := (enC.bind fun l => l.get? chapterNum).bind fun l => l.get? idx
        chapter := chapterNum + 1
        isFirstInChapter := idx == 0 : HalakhaText }
    let tailRes := spanGo heC enC (chapterNum + 1) (cur + ch.length) rest
    (passages ++ tailRes.1, (if 0 < chapterNum then [cur] else []) ++ tailRes.2)

/-- function processTextResponse (sefaria.ts): merges the Hebrew and
English responses positionally, using whichever is available as the
structural basis; returns the passage list and the chapter breaks. -/
def processTextResponse (heData enData : Option SefariaTextResponse) :
    List HalakhaText × List Nat :=
  match heData <|> enData with
  | none => ([], [])
  | some structuralData =>
    let heText : Option TextPayload := heData.bind fun d => d.versions.head?.map (·.text)
    let enText : Option TextPayload := enData.bind fun d => d.versions.head?.map (·.text)
    if structuralData.isSpanning then
      let structChapters := asNestedD (heText <|> enText)
      let heChapters := heText.bind asNested?
      let enChapters := enText.bind asNested?
      spanGo heChapters enChapters 0 0 structChapters
    else if payloadIsArray (structuralData.versions.head?.map (·.text)) then
      let structArray := asFlatD (heText <|> enText)
      let heArray := heText.bind asFlat?
      let enArray := enText.bind asFlat?
      ((List.range structArray.length).map fun idx =>
        { he := (heArray.bind fun l => l.get? idx).getD ""
          en := enArray.bind fun l => l.get? idx
          chapter := 1
          isFirstInChapter := idx == 0 : HalakhaText }, [])
    else
      ([{ he := (heText.bind asSingle?).getD ""
          en := enText.bind asSingle?
          chapter := 1
          isFirstInChapter := true : HalakhaText }], [])

/-- The distinct errors thrown by the fetch layer; each constructor stands
for the corresponding Error message in the source. -/
inductive FetchError where
  /-- Both language fetches failed: ... -/
  | bothLanguagesFailed
  /-- Offline and no cached text available -/
  | offlineNoCachedText
  /-- Offline and no cached data available -/
  | offlineNoCachedData
  /-- Calendar API failed: status -/
  | calendarApiFailed
  /-- No (calendarName) entry found for (date) -/
  | calendarEntryMissing
deriving DecidableEq, Repr

/-- The record fetchHalakhot / fetchHalakhotFromNetwork resolve with. -/
structure TextResult where
  halakhot : List HalakhaText
  chapterBreaks : List Nat
  languagesLoaded : LanguagesLoaded
deriving DecidableEq, Repr

/-- A Text Entry as stored in the texts collection (getTextFromDB).
`languagesLoaded` is optional: entries saved before the flag was added
lack it. `fetchedAt` is a millisecond timestamp. -/
structure TextCacheEntry where
  halakhot : List HalakhaText
  chapterBreaks : List Nat
  languagesLoaded : Option LanguagesLoaded
  fetchedAt : Nat
deriving DecidableEq, Repr

/-- Milliseconds per day. -/
def msPerDay : Nat := 86400000

/-- const TEXT_STALE_DAYS = 7 (texts rarely change). -/
def TEXT_STALE_DAYS : Nat := 7

/-- const CALENDAR_STALE_DAYS = 1 (calendar refreshed daily). -/
def CALENDAR_STALE_DAYS : Nat := 1

/-- Modelled from the spec: isStale lives in services/database.ts, which is
not among the provided sources; the spec says an entry "fetched within the
staleness window (N days)" is fresh and one fetched past it (e.g. 2 days ago
against a 1-day threshold) is stale. The model takes the current time first:
an entry is stale when its age exceeds the window. -/
def isStale (now fetchedAt staleDays : Nat) : Bool :=
  decide (staleDays * msPerDay < now - fetchedAt)

/-- The test `h.he && h.he.length > 0` over the cached passages
(fetchHalakhot's backward-compatible derivation of languagesLoaded.he). -/
def derivedHe (hs : List HalakhaText) : Bool :=
  hs.any fun h => decide (0 < h.he.length)

/-- The test `h.en && h.en.length > 0` over the cached passages (an
absent `en` is falsy). -/
def derivedEn (hs : List HalakhaText) : Bool :=
  hs.any fun h => (h.en.map fun s => decide (0 < s.length)).getD false

/-- What fetchHalakhot returns from a cached Text Entry: the stored passages
and breaks, with languagesLoaded defaulted by scanning the passages when the
stored entry predates that field. -/
def cachedTextResult (c : TextCacheEntry) : TextResult :=
  { halakhot := c.halakhot
    chapterBreaks := c.chapterBreaks
    languagesLoaded := c.languagesLoaded.getD
      { he := derivedHe c.halakhot, en := derivedEn c.halakhot } }

/-- The network-facing environment of one text read: the reachability
probe's answer and the settled outcome of each language fetch (`none`
models a rejected fetch or a non-ok response). -/
structure NetEnv where
  reachable : Bool
  heResponse : Option SefariaTextResponse
  enResponse : Option SefariaTextResponse
deriving DecidableEq, Repr

/-- function fetchHalakhotFromNetwork: Hebrew and English settle
independently; only a simultaneous failure of both throws, otherwise the
responses are merged and the per-language success flags reported. -/
def fetchHalakhotFromNetwork (heData enData : Option SefariaTextResponse) :
    Except FetchError TextResult :=
  if heData = none ∧ enData = none then
    .error .bothLanguagesFailed
  else
    let processed := processTextResponse heData enData
    .ok { halakhot := processed.1
          chapterBreaks := processed.2
          languagesLoaded := { he := heData.isSome, en := enData.isSome } }

/-- function fetchHalakhot (local-first text read): fresh cache wins, a
stale cache is the offline fallback, otherwise the network is consulted.
The write-back to the store is fire-and-forget in the source and does not
affect the returned value, so it is not part of the model. -/
def fetchHalakhot (cached : Option TextCacheEntry) (now : Nat) (env : NetEnv) :
    Except FetchError TextResult :=
  match cached with
  | some c =>
    if !(isStale now c.fetchedAt TEXT_STALE_DAYS) then
      .ok (cachedTextResult c)
    else if !env.reachable then
      .ok (cachedTextResult c)
    else
      fetchHalakhotFromNetwork env.heResponse env.enResponse
  | none =>
    if !env.reachable then
      .error .offlineNoCachedText
    else
      fetchHalakhotFromNetwork env.heResponse env.enResponse

/-- Accumulated output of fetchMultipleHalakhot's combine loop. -/
structure CombineOut where
  hs : List HalakhaText
  bs : List Nat
  he : Bool
  en : Bool
deriving DecidableEq, Repr

/-- The results.forEach loop of fetchMultipleHalakhot, carrying the ref
index and the running passage index: a failed ref (null) clears both
language flags and contributes nothing; a successful ref ANDs its flags in,
pushes a chapter break when it is not the first ref and passages came
before, and re-chapters its passages by ref index. -/
def combineGo : Nat → Nat → List (Option TextResult) → CombineOut
  | _, _, [] => ⟨[], [], true, true⟩
  | idx, cur, none :: rest =>
    let t := combineGo (idx + 1) cur rest
    ⟨t.hs, t.bs, false, false⟩
  | idx, cur, some r :: rest =>
    let passages := r.halakhot.enum.map fun p =>
      { p.2 with chapter := idx + 1, isFirstInChapter := p.1 == 0 }
    let t := combineGo (idx + 1) (cur + r.halakhot.length) rest
    ⟨passages ++ t.hs, (if 0 < idx ∧ 0 < cur then [cur] else []) ++ t.bs,
      r.languagesLoaded.he && t.he, r.languagesLoaded.en && t.en⟩

/-- function fetchMultipleHalakhot: the empty list short-circuits to an
empty success, a single ref delegates to fetchHalakhot (errors propagate),
and two or more refs are fetched with per-ref failures caught to null and
combined. Each element of `inputs` is one ref's cache state and network
environment. -/
def fetchMultipleHalakhot (now : Nat)
    (inputs : List (Option TextCacheEntry × NetEnv)) :
    Except FetchError TextResult :=
  match inputs with
  | [] => .ok { halakhot := [], chapterBreaks := [], languagesLoaded := { he := true, en := true } }
  | [single] => fetchHalakhot single.1 now single.2
  | _ :: _ :: _ =>
    let results := inputs.map fun i => (fetchHalakhot i.1 now i.2).toOption
    let c := combineGo 0 0 results
    .ok { halakhot := c.hs, chapterBreaks := c.bs,
          languagesLoaded := { he := c.he, en := c.en } }

/-- A Calendar Entry as stored in the calendar collection (only the fields
fetchSefariaCalendar reads back: display texts, ref, fetch timestamp). -/
structure CalendarCacheEntry where
  he : String
  en : String
  ref : String
  fetchedAt : Nat
deriving DecidableEq, Repr

/-- interface SefariaCalendarItem, with the nested `title.en` / `title.he`
and `displayValue.en` / `displayValue.he` objects flattened into fields. -/
structure SefariaCalendarItem where
  titleEn : String
  titleHe : String
  displayHe : String
  displayEn : String
  ref : String
deriving DecidableEq, Repr

/-- What fetchSefariaCalendar resolves with (Pick of DayData). -/
structure CalendarResult where
  he : String
  en : String
  ref : String
  heDate : String
  enDate : String
deriving DecidableEq, Repr

/-- The environment of one calendar read: the reachability probe's answer,
the calendar API outcome (`none` models a non-ok response), the configured
title (SEFARIA_CALENDAR_NAMES of the path), and the locally computed Hebrew
date strings (computeHebrewDate — pure, no network). -/
structure CalendarEnv where
  reachable : Bool
  response : Option (List SefariaCalendarItem)
  calendarName : String
  heDate : String
  enDate : String
deriving DecidableEq, Repr

/-- A cached Calendar Entry as fetchSefariaCalendar returns it, paired with
the locally computed Hebrew date strings. -/
def calendarCachedResult (c : CalendarCacheEntry) (heDate enDate : String) :
    CalendarResult :=
  ⟨c.he, c.en, c.ref, heDate, enDate⟩

/-- The network tail of fetchSefariaCalendar: a non-ok response falls back
to the (stale) cache when present and fails otherwise; a successful
response is searched for the item whose English title matches the path's
configured calendar name, a missing item is a hard failure. -/
def fetchCalendarNetwork (cached : Option CalendarCacheEntry) (env : CalendarEnv) :
    Except FetchError CalendarResult :=
  match env.response with
  | none =>
    match cached with
    | some c => .ok (calendarCachedResult c env.heDate env.enDate)
    | none => .error .calendarApiFailed
  | some items =>
    match items.find? fun item => item.titleEn == env.calendarName with
    | none => .error .calendarEntryMissing
    | some entry => .ok ⟨entry.displayHe, entry.displayEn, entry.ref, env.heDate, env.enDate⟩

/-- function fetchSefariaCalendar (local-first calendar read): a fresh
cached entry is returned at once; offline, a stale cached entry is the
fallback and a missing one is a failure; otherwise the network is fetched.
The store write-back is fire-and-forget and not modelled. -/
def fetchSefariaCalendar (cached : Option CalendarCacheEntry) (now : Nat)
    (env : CalendarEnv) : Except FetchError CalendarResult :=
  match cached with
  | some c =>
    if !(isStale now c.fetchedAt CALENDAR_STALE_DAYS) then
      .ok (calendarCachedResult c env.heDate env.enDate)
    else if !env.reachable then
      .ok (calendarCachedResult c env.heDate env.enDate)
    else
      fetchCalendarNetwork (some c) env
  | none =>
    if !env.reachable then
      .error .offlineNoCachedData
    else
      fetchCalendarNetwork none env

/-! ### Migration runner (services/migration.ts) -/

/-- The three study paths, in the iteration order of
migrateTextsToIndexedDB. -/
inductive StudyPath where
  | rambam3
  | rambam1
  | mitzvot
deriving DecidableEq, Repr

/-- The per-day record of the legacy localStorage blob, as the migration
reads it: an optional ref, optional already-fetched passages, optional
chapter breaks (all may be absent on never-fetched days). -/
structure LegacyDayData where
  ref : Option String
  texts : Option (List HalakhaText)
  chapterBreaks : Option (List Nat)
deriving DecidableEq, Repr

/-- The `days` map of the legacy app state: per path, the day records in
Object.entries order (`none` when the path key is absent). -/
structure LegacyDays where
  rambam3 : Option (List LegacyDayData)
  rambam1 : Option (List LegacyDayData)
  mitzvot : Option (List LegacyDayData)
deriving DecidableEq, Repr

/-- Look up one path's day records. -/
def LegacyDays.get (d : LegacyDays) : StudyPath → Option (List LegacyDayData)
  | .rambam3 => d.rambam3
  | .rambam1 => d.rambam1
  | .mitzvot => d.mitzvot

/-- The possible states of the legacy localStorage blob: absent
(getItem null), malformed (JSON.parse throws), parsed without a
state.state.days object, or fully parsed. -/
inductive LegacyBlob where
  | absent
  | malformed
  | noDays
  | parsed (days : LegacyDays)
deriving DecidableEq, Repr

/-- The control-plane state the migration reads and writes: the
migration-v1-complete Metadata flag and the (never mutated) legacy blob. -/
structure MigState where
  migrated : Bool
  blob : LegacyBlob
deriving DecidableEq, Repr

/-- One saveTextToDB call issued by the migration. -/
structure TextWrite where
  ref : String
  texts : List HalakhaText
  chapterBreaks : List Nat
deriving DecidableEq, Repr

/-- Accumulator of the migration loop: refs migrated so far (the dedup
set), the migrated count, and the store writes in order. -/
structure MigAcc where
  refs : List String
  count : Nat
  writes : List TextWrite
deriving DecidableEq, Repr

/-- One day of the migration loop: skipped when the day has no texts, a
falsy ref (absent or empty string), or an already-migrated ref; otherwise
the text is written once and the ref recorded. -/
def migrateStep (acc : MigAcc) (d : LegacyDayData) : MigAcc :=
  match d.texts, d.ref with
  | some texts, some ref =>
    if ref = "" ∨ acc.refs.contains ref then acc
    else
      { refs := ref :: acc.refs
        count := acc.count + 1
        writes := acc.writes ++ [⟨ref, texts, d.chapterBreaks.getD []⟩] }
  | _, _ => acc

/-- The nested path/day loop of migrateTextsToIndexedDB over a parsed
days map (an absent path is skipped). -/
def migrateDays (days : LegacyDays) : MigAcc :=
  [StudyPath.rambam3, StudyPath.rambam1, StudyPath.mitzvot].foldl
    (fun acc p => ((days.get p).getD []).foldl migrateStep acc)
    ⟨[], 0, []⟩

/-- function migrateTextsToIndexedDB: returns the migrated count, the
store writes performed, and the state after the run. Already migrated
returns 0 at once; an absent or malformed blob (or one without days) marks
the migration complete and returns 0; otherwise every distinct ref with
texts is written once and the completion flag set. -/
def migrateTextsToIndexedDB (s : MigState) : Nat × List TextWrite × MigState :=
  if s.migrated then (0, [], s)
  else
    match s.blob with
    | .absent => (0, [], { s with migrated := true })
    | .malformed => (0, [], { s with migrated := true })
    | .noDays => (0, [], { s with migrated := true })
    | .parsed days =>
      let acc := migrateDays days
      (acc.count, acc.writes, { s with migrated := true })

/-! ### Background sync scheduler (services/backgroundSync.ts) -/

/-- The browser-visible environment of one sync attempt. `onLine` is
navigator.onLine (the browser connectivity flag canSync consults) and
`visible` is whether document.visibilityState is "visible"; `reachable` is
the stricter reachability probe (isReachable), which the sync gate does
not consult — it gates the individual fetches inside a run instead. -/
structure SyncEnv where
  onLine : Bool
  visible : Bool
  reachable : Bool
deriving DecidableEq, Repr

/-- function canSync: false when the browser reports offline, false when
the tab is hidden, true otherwise. -/
def canSync (env : SyncEnv) : Bool :=
  if !env.onLine then false
  else if !env.visible then false
  else true

/-- The entry guard of runSync: whether a call proceeds past
`if (syncInProgress || !canSync()) return;` into the body of the run. -/
def runSyncProceeds (syncInProgress : Bool) (env : SyncEnv) : Bool :=
  if syncInProgress || !canSync env then false else true

/-! ### Helper lemmas -/

/-- Prefix sums of chapter sizes starting at `cur`: one entry per chapter,
each entry the total number of passages before that chapter. -/
def cumFrom (cur : Nat) : List Nat → List Nat
  | [] => []
  | s :: rest => cur :: cumFrom (cur + s) rest

/-- The chapter breaks of a spanning reference with the given chapter
sizes: the cumulative sums, one break preceding each chapter after the
first. -/
def cumBreaks : List Nat → List Nat
  | [] => []
  | s :: rest => cumFrom s rest

/-- Passage count a per-ref result contributes to the merge: a failed ref
(null) counts zero. -/
def resultLen : Option TextResult → Nat
  | none => 0
  | some t => t.halakhot.length

/-- Whether a per-ref result loaded Hebrew; a failed ref counts as
lacking the language. -/
def loadedHe : Option TextResult → Bool
  | none => false
  | some t => t.languagesLoaded.he

/-- Whether a per-ref result loaded English; a failed ref counts as
lacking the language. -/
def loadedEn : Option TextResult → Bool
  | none => false
  | some t => t.languagesLoaded.en

/-- The chapter list the spanning branch of processTextResponse iterates
(empty when that branch is not taken). -/
def spanningChapters (heData enData : Option SefariaTextResponse) :
    List (List String) :=
  match heData <|> enData with
  | none => []
  | some structuralData =>
    let heText : Option TextPayload := heData.bind fun d => d.versions.head?.map (·.text)
    let enText : Option TextPayload := enData.bind fun d => d.versions.head?.map (·.text)
    if structuralData.isSpanning then asNestedD (heText <|> enText) else []

/-- A fetch outcome that, when successful, carries at least one passage. -/
def okNonempty : Except FetchError TextResult → Bool
  | .ok t => !t.halakhot.isEmpty
  | .error _ => true

/-- The invariant the migration loop maintains: the refs of the writes so
far are pairwise distinct and all recorded in the dedup set. -/
def MigInv (acc : MigAcc) : Prop :=
  (acc.writes.map TextWrite.ref).Nodup
  ∧ ∀ r ∈ acc.writes.map TextWrite.ref, r ∈ acc.refs

theorem spanGo_breaks_succ (heC enC : Option (List (List String))) (k : Nat) :
    ∀ (chs : List (List String)) (cur : Nat),
      (spanGo heC enC (k + 1) cur chs).2 = cumFrom cur (chs.map List.length) := by
  intro chs
  induction chs generalizing k with
  | nil => intro cur; rfl
  | cons ch rest ih =>
    intro cur
    simp only [spanGo, List.map_cons, cumFrom]
    rw [ih (k + 1)]
    simp

theorem spanGo_breaks_zero (heC enC : Option (List (List String)))
    (chs : List (List String)) :
    (spanGo heC enC 0 0 chs).2 = cumBreaks (chs.map List.length) := by
  cases chs with
  | nil => rfl
  | cons ch rest =>
    simp only [spanGo, cumBreaks, List.map_cons, Nat.zero_add]
    rw [spanGo_breaks_succ heC enC 0 rest ch.length]
    simp

theorem spanGo_length (heC enC : Option (List (List String))) :
    ∀ (chs : List (List String)) (k cur : Nat),
      (spanGo heC enC k cur chs).1.length = (chs.map List.length).sum := by
  intro chs
  induction chs with
  | nil => intro k cur; rfl
  | cons ch rest ih =>
    intro k cur
    simp only [spanGo, List.map_cons, List.sum_cons, List.length_append,
      List.length_map, List.length_range]
    rw [ih]

/-- Every passage produced with a null English response has no `en` field. -/
theorem spanGo_en_none (heC : Option (List (List String))) :
    ∀ (chs : List (List String)) (k cur : Nat),
      ∀ p ∈ (spanGo heC none k cur chs).1, p.en = none := by
  intro chs
  induction chs with
  | nil => intro k cur p hp; simp [spanGo] at hp
  | cons ch rest ih =>
    intro k cur p hp
    simp only [spanGo, List.mem_append, List.mem_map, List.mem_range] at hp
    rcases hp with ⟨idx, _, rfl⟩ | hp
    · rfl
    · exact ih (k + 1) (cur + ch.length) p hp

theorem processTextResponse_en_none (hd : Option SefariaTextResponse) :
    ∀ p ∈ (processTextResponse hd none).1, p.en = none := by
  cases hd with
  | none => intro p hp; simp [processTextResponse] at hp
  | some d =>
    intro p hp
    simp only [processTextResponse, Option.orElse_none, Option.some_orElse,
      Option.bind_none, Option.none_bind] at hp
    by_cases hsp : d.isSpanning
    · rw [if_pos hsp] at hp
      exact spanGo_en_none _ _ 0 0 p hp
    · rw [if_neg hsp] at hp
      by_cases harr : payloadIsArray (d.versions.head?.map (·.text)) = true
      · rw [if_pos harr] at hp
        simp only [List.mem_map, List.mem_range] at hp
        obtain ⟨idx, _, rfl⟩ := hp
        rfl
      · rw [if_neg harr] at hp
        simp only [List.mem_singleton] at hp
        subst hp
        rfl

/-! ### Claims -/

/-- C10: fetchMultipleHalakhot applied to an empty reference list succeeds
with an empty passage sequence, empty chapter breaks, and
languagesLoaded = (he := true, en := true) — the AND is vacuously true. -/
theorem multiFetch_empty_refs (now : Nat) :
    fetchMultipleHalakhot now [] =
      .ok { halakhot := [], chapterBreaks := [],
            languagesLoaded := { he := true, en := true } } := rfl

/-- C5: for a spanning reference, the chapter-break offsets are the
cumulative sums of the chapter sizes, one break preceding each chapter
after the first; in particular, chapters of sizes 23, 20, 15 give breaks
23 and 43. -/
theorem spanning_chapterBreaks_cumulative :
    (∀ (css : List (List String)) (enData : Option SefariaTextResponse),
      (processTextResponse (some ⟨[⟨.nested css⟩], true⟩) enData).2 =
        cumBreaks (css.map List.length))
    ∧ (processTextResponse
        (some ⟨[⟨.nested [List.replicate 23 "h", List.replicate 20 "h",
          List.replicate 15 "h"]⟩], true⟩) none).2 = [23, 43] := by
  constructor
  · intro css enData
    simp only [processTextResponse, Option.some_orElse, if_pos,
      Option.bind_some, Option.map_some, List.head?_cons, Option.some_bind]
    rw [spanGo_breaks_zero]
    congr 1
  · decide

/-- C1: the bilingual network fetch settles the two language requests
independently: it throws exactly when both fail; a Hebrew-only success
returns languagesLoaded (he := true, en := false) with every passage's
`en` field absent; an English-only success returns (he := false,
en := true); a double success returns (he := true, en := true). -/
theorem fetchNetwork_partial_failure :
    (fetchHalakhotFromNetwork none none = .error .bothLanguagesFailed)
    ∧ (∀ he : SefariaTextResponse,
        fetchHalakhotFromNetwork (some he) none =
          .ok { halakhot := (processTextResponse (some he) none).1
                chapterBreaks := (processTextResponse (some he) none).2
                languagesLoaded := { he := true, en := false } }
        ∧ ∀ p ∈ (processTextResponse (some he) none).1, p.en = none)
    ∧ (∀ en : SefariaTextResponse,
        fetchHalakhotFromNetwork none (some en) =
          .ok { halakhot := (processTextResponse none (some en)).1
                chapterBreaks := (processTextResponse none (some en)).2
                languagesLoaded := { he := false, en := true } })
    ∧ (∀ he en : SefariaTextResponse,
        fetchHalakhotFromNetwork (some he) (some en) =
          .ok { halakhot := (processTextResponse (some he) (some en)).1
                chapterBreaks := (processTextResponse (some he) (some en)).2
                languagesLoaded := { he := true, en := true } }) := by
  refine ⟨rfl, fun he => ⟨?_, processTextResponse_en_none (some he)⟩,
    fun en => ?_, fun he en => ?_⟩
  · simp [fetchHalakhotFromNetwork]
  · simp [fetchHalakhotFromNetwork]
  · simp [fetchHalakhotFromNetwork]

/-- C1 witness: the partial-failure behaviour at a concrete single-passage
Hebrew response. -/
theorem fetchNetwork_partial_failure_instance :
    fetchHalakhotFromNetwork (some ⟨[⟨.single "h"⟩], false⟩) none =
      .ok { halakhot := [⟨"h", none, 1, true⟩], chapterBreaks := [],
            languagesLoaded := { he := true, en := false } } :=
  ((fetchNetwork_partial_failure.2.1 ⟨[⟨.single "h"⟩], false⟩).1).trans (by rfl)

/-- C3: with a fresh cached Text Entry (inside the 7-day window),
fetchHalakhot returns the cached entry whatever the network environment is
(in particular the network responses and reachability are never consulted),
and an entry stored without a languagesLoaded field gets the flag derived
by scanning its passages for non-empty content per language. -/
theorem fetchHalakhot_fresh_cache_no_network (c : TextCacheEntry) (now : Nat)
    (env : NetEnv) (hfresh : isStale now c.fetchedAt TEXT_STALE_DAYS = false) :
    fetchHalakhot (some c) now env = .ok (cachedTextResult c)
    ∧ (c.languagesLoaded = none →
        (cachedTextResult c).languagesLoaded =
          { he := derivedHe c.halakhot, en := derivedEn c.halakhot }) := by
  constructor
  · simp [fetchHalakhot, hfresh]
  · intro h
    simp [cachedTextResult, h]

/-- C3 witness: a concrete pre-flag cache entry, fresh at time 0, is
returned unchanged with the derived flag, for an arbitrary environment. -/
theorem fetchHalakhot_fresh_cache_no_network_instance :
    fetchHalakhot (some ⟨[⟨"h", none, 1, true⟩], [], none, 0⟩) 0 ⟨true, none, none⟩ =
      .ok (cachedTextResult ⟨[⟨"h", none, 1, true⟩], [], none, 0⟩)
    ∧ ((⟨[⟨"h", none, 1, true⟩], [], none, 0⟩ : TextCacheEntry).languagesLoaded = none →
        (cachedTextResult ⟨[⟨"h", none, 1, true⟩], [], none, 0⟩).languagesLoaded =
          { he := derivedHe [⟨"h", none, 1, true⟩], en := derivedEn [⟨"h", none, 1, true⟩] }) :=
  fetchHalakhot_fresh_cache_no_network ⟨[⟨"h", none, 1, true⟩], [], none, 0⟩ 0
    ⟨true, none, none⟩ (by decide)

/-- C4: with the network not reachable, fetchHalakhot returns the cached
Text Entry when one exists (stale or not) and fails with the
offline-no-cached-text error when none exists. -/
theorem fetchHalakhot_offline_fallback (now : Nat) (env : NetEnv)
    (hoff : env.reachable = false) :
    (∀ c : TextCacheEntry, fetchHalakhot (some c) now env = .ok (cachedTextResult c))
    ∧ fetchHalakhot none now env = .error .offlineNoCachedText := by
  constructor
  · intro c
    by_cases hst : isStale now c.fetchedAt TEXT_STALE_DAYS = true
    · simp [fetchHalakhot, hst, hoff]
    · simp only [Bool.not_eq_true] at hst
      simp [fetchHalakhot, hst]
  · simp [fetchHalakhot, hoff]

/-- C4 witness: at a concrete unreachable environment, a concrete stale
entry is returned and the empty cache fails with the offline error. -/
theorem fetchHalakhot_offline_fallback_instance :
    fetchHalakhot (some ⟨[⟨"h", none, 1, true⟩], [], none, 0⟩) (8 * msPerDay)
        ⟨false, none, none⟩ =
      .ok (cachedTextResult ⟨[⟨"h", none, 1, true⟩], [], none, 0⟩)
    ∧ fetchHalakhot none (8 * msPerDay) ⟨false, none, none⟩ = .error .offlineNoCachedText :=
  ⟨(fetchHalakhot_offline_fallback (8 * msPerDay) ⟨false, none, none⟩ rfl).1
      ⟨[⟨"h", none, 1, true⟩], [], none, 0⟩,
    (fetchHalakhot_offline_fallback (8 * msPerDay) ⟨false, none, none⟩ rfl).2⟩

/-- C7: a cached Calendar Entry fetched 2 days ago is stale against the
1-day threshold; when reachable, fetchSefariaCalendar goes to the network
tail for a refetch, and when unreachable the stale entry is still returned
as the fallback. -/
theorem calendar_staleness_refetch_fallback (c : CalendarCacheEntry) (now : Nat)
    (env : CalendarEnv) (hage : now - c.fetchedAt = 2 * msPerDay) :
    isStale now c.fetchedAt CALENDAR_STALE_DAYS = true
    ∧ (env.reachable = true →
        fetchSefariaCalendar (some c) now env = fetchCalendarNetwork (some c) env)
    ∧ (env.reachable = false →
        fetchSefariaCalendar (some c) now env =
          .ok (calendarCachedResult c env.heDate env.enDate)) := by
  have hstale : isStale now c.fetchedAt CALENDAR_STALE_DAYS = true := by
    simp [isStale, hage, CALENDAR_STALE_DAYS, msPerDay]
  refine ⟨hstale, fun hre => ?_, fun hre => ?_⟩
  · simp [fetchSefariaCalendar, hstale, hre]
  · simp [fetchSefariaCalendar, hstale, hre]

/-- C7 witness: a concrete entry fetched at time 0, read 2 days later, in
both a reachable and an unreachable concrete environment. -/
theorem calendar_staleness_refetch_fallback_instance :
    isStale (2 * msPerDay) (0 : Nat) CALENDAR_STALE_DAYS = true
    ∧ ((⟨false, none, "t", "hd", "ed"⟩ : CalendarEnv).reachable = true →
        fetchSefariaCalendar (some ⟨"a", "b", "r", 0⟩) (2 * msPerDay) ⟨false, none, "t", "hd", "ed"⟩ =
          fetchCalendarNetwork (some ⟨"a", "b", "r", 0⟩) ⟨false, none, "t", "hd", "ed"⟩)
    ∧ ((⟨false, none, "t", "hd", "ed"⟩ : CalendarEnv).reachable = false →
        fetchSefariaCalendar (some ⟨"a", "b", "r", 0⟩) (2 * msPerDay) ⟨false, none, "t", "hd", "ed"⟩ =
          .ok (calendarCachedResult ⟨"a", "b", "r", 0⟩ "hd" "ed")) :=
  calendar_staleness_refetch_fallback ⟨"a", "b", "r", 0⟩ (2 * msPerDay)
    ⟨false, none, "t", "hd", "ed"⟩ (by decide)

/-- C9 counterexample: with the browser reporting online and the tab
visible, runSync proceeds even though the reachability probe answers
false — canSync consults navigator.onLine, not isReachable, so "a run
proceeds only when the network is reachable" fails on the code. -/
theorem syncGate_ignores_reachability :
    runSyncProceeds false ⟨true, true, false⟩ = true
    ∧ (⟨true, true, false⟩ : SyncEnv).reachable = false := ⟨rfl, rfl⟩

/-- C9 amended: the run-in-progress flag makes runSync return immediately
while a run is active, and a run proceeds only when the browser reports
the network online (navigator.onLine) and the tab is currently visible;
the stricter reachability probe is not part of this gate (it gates the
individual fetches inside a run). -/
theorem syncGate_mutex_online_visible :
    (∀ env : SyncEnv, runSyncProceeds true env = false)
    ∧ (∀ (flag : Bool) (env : SyncEnv), runSyncProceeds flag env = true →
        flag = false ∧ env.onLine = true ∧ env.visible = true) := by
  constructor
  · intro env
    simp [runSyncProceeds]
  · intro flag env h
    rcases env with ⟨o, v, r⟩
    cases flag <;> cases o <;> cases v <;> simp_all [runSyncProceeds, canSync]

/-- C9 witness: the gate refuses a concrete call while a run is active and
a concrete proceeding call implies the browser-online and visible flags. -/
theorem syncGate_mutex_online_visible_instance :
    runSyncProceeds true ⟨true, true, true⟩ = false
    ∧ (false = false ∧ (⟨true, true, true⟩ : SyncEnv).onLine = true
        ∧ (⟨true, true, true⟩ : SyncEnv).visible = true) :=
  ⟨syncGate_mutex_online_visible.1 ⟨true, true, true⟩,
    syncGate_mutex_online_visible.2 false ⟨true, true, true⟩ rfl⟩

theorem migrateStep_inv (acc : MigAcc) (d : LegacyDayData) (h : MigInv acc) :
    MigInv (migrateStep acc d) := by
  rcases d with ⟨ref, texts, cbs⟩
  rcases texts with _ | texts
  · exact h
  rcases ref with _ | ref
  · exact h
  simp only [migrateStep]
  by_cases hskip : ref = "" ∨ acc.refs.contains ref
  · rw [if_pos hskip]; exact h
  · rw [if_neg hskip]
    push_neg at hskip
    have hnotmem : ref ∉ acc.refs := by
      intro hmem
      exact hskip.2 (by simpa using hmem)
    constructor
    · simp only [List.map_append, List.map_cons, List.map_nil]
      rw [List.nodup_append]
      refine ⟨h.1, List.nodup_singleton ref, ?_⟩
      intro x hx hx'
      simp only [List.mem_singleton] at hx'
      subst hx'
      exact hnotmem (h.2 x hx)
    · intro r hr
      simp only [List.map_append, List.map_cons, List.map_nil,
        List.mem_append, List.mem_singleton] at hr
      rcases hr with hr | rfl
      · exact List.mem_cons_of_mem _ (h.2 r hr)
      · exact List.mem_cons_self _ _

theorem migrateFold_inv (l : List LegacyDayData) :
    ∀ acc : MigAcc, MigInv acc → MigInv (l.foldl migrateStep acc) := by
  induction l with
  | nil => intro acc h; exact h
  | cons d rest ih =>
    intro acc h
    exact ih (migrateStep acc d) (migrateStep_inv acc d h)

theorem migrateDays_nodup (days : LegacyDays) :
    ((migrateDays days).writes.map TextWrite.ref).Nodup := by
  have h0 : MigInv ⟨[], 0, []⟩ := ⟨List.nodup_nil, by intro r hr; simp at hr⟩
  have h1 := migrateFold_inv ((days.get .rambam3).getD []) _ h0
  have h2 := migrateFold_inv ((days.get .rambam1).getD []) _ h1
  have h3 := migrateFold_inv ((days.get .mitzvot).getD []) _ h2
  exact h3.1

/-- C8: the migration run is idempotent — every run leaves the completion
flag set, a second run on the resulting state migrates zero entries and
issues no store writes; within a single run the written refs are pairwise
distinct (each distinct content reference is written at most once); an
absent or malformed legacy blob marks the run complete and returns zero
instead of failing. -/
theorem migration_idempotent_dedup :
    (∀ s : MigState,
      (migrateTextsToIndexedDB s).2.2.migrated = true
      ∧ migrateTextsToIndexedDB (migrateTextsToIndexedDB s).2.2 =
          (0, [], (migrateTextsToIndexedDB s).2.2)
      ∧ ((migrateTextsToIndexedDB s).2.1.map TextWrite.ref).Nodup)
    ∧ (∀ b : Bool,
        migrateTextsToIndexedDB ⟨b, .absent⟩ = (0, [], ⟨true, .absent⟩)
        ∧ migrateTextsToIndexedDB ⟨b, .malformed⟩ = (0, [], ⟨true, .malformed⟩)) := by
  have hflag : ∀ s : MigState, (migrateTextsToIndexedDB s).2.2.migrated = true := by
    intro s
    rcases s with ⟨m, blob⟩
    cases m
    · cases blob <;> simp [migrateTextsToIndexedDB]
    · simp [migrateTextsToIndexedDB]
  have hdone : ∀ t : MigState, t.migrated = true → migrateTextsToIndexedDB t = (0, [], t) := by
    intro t ht
    simp [migrateTextsToIndexedDB, ht]
  constructor
  · intro s
    refine ⟨hflag s, ?_, ?_⟩
    · exact hdone _ (hflag s)
    · rcases s with ⟨m, blob⟩
      cases m
      · cases blob with
        | parsed days =>
          simpa [migrateTextsToIndexedDB] using migrateDays_nodup days
        | absent => simp [migrateTextsToIndexedDB]
        | malformed => simp [migrateTextsToIndexedDB]
        | noDays => simp [migrateTextsToIndexedDB]
      · simp [migrateTextsToIndexedDB]
  · intro b
    cases b <;> constructor <;> simp [migrateTextsToIndexedDB]

theorem combineGo_hs_length :
    ∀ (rs : List (Option TextResult)) (idx cur : Nat),
      (combineGo idx cur rs).hs.length = (rs.map resultLen).sum := by
  intro rs
  induction rs with
  | nil => intro idx cur; rfl
  | cons r rest ih =>
    intro idx cur
    cases r with
    | none => simpa [combineGo, resultLen] using ih (idx + 1) cur
    | some t =>
      simp [combineGo, resultLen, ih (idx + 1) (cur + t.halakhot.length)]

theorem combineGo_he :
    ∀ (rs : List (Option TextResult)) (idx cur : Nat),
      (combineGo idx cur rs).he = rs.all loadedHe := by
  intro rs
  induction rs with
  | nil => intro idx cur; rfl
  | cons r rest ih =>
    intro idx cur
    cases r with
    | none => simp [combineGo, loadedHe]
    | some t => simp [combineGo, loadedHe, ih (idx + 1) (cur + t.halakhot.length)]

theorem combineGo_en :
    ∀ (rs : List (Option TextResult)) (idx cur : Nat),
      (combineGo idx cur rs).en = rs.all loadedEn := by
  intro rs
  induction rs with
  | nil => intro idx cur; rfl
  | cons r rest ih =>
    intro idx cur
    cases r with
    | none => simp [combineGo, loadedEn]
    | some t => simp [combineGo, loadedEn, ih (idx + 1) (cur + t.halakhot.length)]

/-- C2 counterexample: a non-empty (singleton) reference list whose single
fetch fails makes fetchMultipleHalakhot fail as a whole — the singleton
fast path delegates to fetchHalakhot and propagates its error instead of
degrading the failed reference to zero passages. -/
theorem multiFetch_singleton_failure_propagates :
    fetchMultipleHalakhot 0 [((none : Option TextCacheEntry), ⟨false, none, none⟩)] =
      .error .offlineNoCachedText := rfl

/-- C2 amended: for every list of at least two references, the merge
succeeds whatever the per-reference outcomes are, its passage count is the
sum of the passage counts of the successful references (failed ones count
zero), and the aggregate languagesLoaded flags are the AND over all
references, failed references counting as lacking both languages. (A
singleton list instead delegates to the single-reference read and
propagates its failure.) -/
theorem multiFetch_sum_and_flags (now : Nat)
    (inputs : List (Option TextCacheEntry × NetEnv)) (hlen : 2 ≤ inputs.length) :
    (fetchMultipleHalakhot now inputs).toOption.map
        (fun t => (t.halakhot.length, t.languagesLoaded.he, t.languagesLoaded.en)) =
      some
        (((inputs.map fun i => (fetchHalakhot i.1 now i.2).toOption).map resultLen).sum,
          (inputs.map fun i => (fetchHalakhot i.1 now i.2).toOption).all loadedHe,
          (inputs.map fun i => (fetchHalakhot i.1 now i.2).toOption).all loadedEn) := by
  match inputs with
  | [] => simp at hlen
  | [single] => simp at hlen
  | a :: b :: rest =>
    simp only [fetchMultipleHalakhot, Except.toOption, Option.map_some, Option.map_some']
    rw [combineGo_hs_length, combineGo_he, combineGo_en]

/-- C2 witness: two concrete references with fresh cached entries (one
lacking English): the merge reports 2 passages and he-AND true, en-AND
false. -/
theorem multiFetch_sum_and_flags_instance :
    (fetchMultipleHalakhot 0
        [(some ⟨[⟨"a", some "A", 1, true⟩], [], some ⟨true, true⟩, 0⟩, ⟨true, none, none⟩),
         (some ⟨[⟨"b", none, 1, true⟩], [], some ⟨true, false⟩, 0⟩, ⟨true, none, none⟩)]).toOption.map
        (fun t => (t.halakhot.length, t.languagesLoaded.he, t.languagesLoaded.en)) =
      some
        ((([(some ⟨[⟨"a", some "A", 1, true⟩], [], some ⟨true, true⟩, 0⟩, (⟨true, none, none⟩ : NetEnv)),
            (some ⟨[⟨"b", none, 1, true⟩], [], some ⟨true, false⟩, 0⟩, ⟨true, none, none⟩)].map
              fun i => (fetchHalakhot i.1 0 i.2).toOption).map resultLen).sum,
          ([(some ⟨[⟨"a", some "A", 1, true⟩], [], some ⟨true, true⟩, 0⟩, (⟨true, none, none⟩ : NetEnv)),
            (some ⟨[⟨"b", none, 1, true⟩], [], some ⟨true, false⟩, 0⟩, ⟨true, none, none⟩)].map
              fun i => (fetchHalakhot i.1 0 i.2).toOption).all loadedHe,
          ([(some ⟨[⟨"a", some "A", 1, true⟩], [], some ⟨true, true⟩, 0⟩, (⟨true, none, none⟩ : NetEnv)),
            (some ⟨[⟨"b", none, 1, true⟩], [], some ⟨true, false⟩, 0⟩, ⟨true, none, none⟩)].map
              fun i => (fetchHalakhot i.1 0 i.2).toOption).all loadedEn) :=
  multiFetch_sum_and_flags 0
    [(some ⟨[⟨"a", some "A", 1, true⟩], [], some ⟨true, true⟩, 0⟩, ⟨true, none, none⟩),
     (some ⟨[⟨"b", none, 1, true⟩], [], some ⟨true, false⟩, 0⟩, ⟨true, none, none⟩)]
    (by decide)

theorem cumFrom_props :
    ∀ (sizes : List Nat) (cur : Nat), (∀ s ∈ sizes, 1 ≤ s) →
      (cumFrom cur sizes).Pairwise (· < ·)
      ∧ ∀ b ∈ cumFrom cur sizes, cur ≤ b ∧ b + 1 ≤ cur + sizes.sum := by
  intro sizes
  induction sizes with
  | nil =>
    intro cur _
    exact ⟨List.Pairwise.nil, by intro b hb; simp [cumFrom] at hb⟩
  | cons s rest ih =>
    intro cur hs
    have hs1 : 1 ≤ s := hs s (List.mem_cons_self s rest)
    have hrest : ∀ x ∈ rest, 1 ≤ x := fun x hx => hs x (List.mem_cons_of_mem s hx)
    obtain ⟨ihp, ihb⟩ := ih (cur + s) hrest
    constructor
    · refine List.Pairwise.cons ?_ ihp
      intro b hb
      have := (ihb b hb).1
      omega
    · intro b hb
      rcases List.mem_cons.mp hb with rfl | hb
      · refine ⟨Nat.le_refl _, ?_⟩
        simp only [List.sum_cons]
        omega
      · obtain ⟨h1, h2⟩ := ihb b hb
        simp only [List.sum_cons]
        omega

theorem cumBreaks_props (sizes : List Nat) (hs : ∀ s ∈ sizes, 1 ≤ s) :
    (cumBreaks sizes).Pairwise (· < ·)
    ∧ ∀ b ∈ cumBreaks sizes, 1 ≤ b ∧ b + 1 ≤ sizes.sum := by
  cases sizes with
  | nil =>
    exact ⟨List.Pairwise.nil, by intro b hb; simp [cumBreaks] at hb⟩
  | cons s rest =>
    have hs1 : 1 ≤ s := hs s (List.mem_cons_self s rest)
    have hrest : ∀ x ∈ rest, 1 ≤ x := fun x hx => hs x (List.mem_cons_of_mem s hx)
    obtain ⟨hp, hb⟩ := cumFrom_props rest s hrest
    refine ⟨hp, ?_⟩
    intro b hbmem
    obtain ⟨h1, h2⟩ := hb b hbmem
    simp only [List.sum_cons]
    omega

/-- processTextResponse either emits no chapter breaks at all, or emits
the cumulative sums of the spanning chapter sizes while producing exactly
their total number of passages. -/
theorem processTextResponse_breaks_shape (hd ed : Option SefariaTextResponse) :
    (processTextResponse hd ed).2 = []
    ∨ ((processTextResponse hd ed).2 =
          cumBreaks ((spanningChapters hd ed).map List.length)
        ∧ (processTextResponse hd ed).1.length =
            ((spanningChapters hd ed).map List.length).sum) := by
  cases horl : hd <|> ed with
  | none =>
    left
    simp [processTextResponse, horl]
  | some sd =>
    by_cases hsp : sd.isSpanning = true
    · right
      simp only [processTextResponse, spanningChapters, horl, hsp, if_true]
      exact ⟨spanGo_breaks_zero _ _ _, spanGo_length _ _ _ 0 0⟩
    · left
      simp only [processTextResponse, horl, hsp]
      by_cases harr : payloadIsArray (sd.versions.head?.map (·.text)) = true <;>
        simp [harr]

/-- The breaks of the merge's combine loop are strictly increasing and in
range provided every successful per-ref result is non-empty. -/
theorem combineGo_breaks (rs : List (Option TextResult))
    (hne : ∀ r ∈ rs, ∀ t : TextResult, r = some t → t.halakhot ≠ []) :
    ∀ idx cur,
      ((combineGo idx cur rs).bs.Pairwise (· < ·))
      ∧ ∀ b ∈ (combineGo idx cur rs).bs,
          1 ≤ b ∧ cur ≤ b ∧ b + 1 ≤ cur + (combineGo idx cur rs).hs.length := by
  induction rs with
  | nil =>
    intro idx cur
    exact ⟨List.Pairwise.nil, by intro b hb; simp [combineGo] at hb⟩
  | cons r rest ih =>
    have hrest : ∀ x ∈ rest, ∀ t : TextResult, x = some t → t.halakhot ≠ [] :=
      fun x hx => hne x (List.mem_cons_of_mem r hx)
    intro idx cur
    cases r with
    | none =>
      obtain ⟨ihp, ihb⟩ := ih hrest (idx + 1) cur
      exact ⟨ihp, ihb⟩
    | some t =>
      have hn : 1 ≤ t.halakhot.length := by
        have := hne (some t) (List.mem_cons_self _ _) t rfl
        cases htl : t.halakhot with
        | nil => exact absurd htl this
        | cons x xs => simp
      obtain ⟨ihp, ihb⟩ := ih hrest (idx + 1) (cur + t.halakhot.length)
      have hlen : (combineGo idx cur (some t :: rest)).hs.length =
          t.halakhot.length + (combineGo (idx + 1) (cur + t.halakhot.length) rest).hs.length := by
        simp [combineGo]
      by_cases hbrk : 0 < idx ∧ 0 < cur
      · constructor
        · have : (combineGo idx cur (some t :: rest)).bs =
              cur :: (combineGo (idx + 1) (cur + t.halakhot.length) rest).bs := by
            simp [combineGo, hbrk]
          rw [this]
          refine List.Pairwise.cons ?_ ihp
          intro b hb
          have := (ihb b hb).2.1
          omega
        · intro b hb
          have hbs : (combineGo idx cur (some t :: rest)).bs =
              cur :: (combineGo (idx + 1) (cur + t.halakhot.length) rest).bs := by
            simp [combineGo, hbrk]
          rw [hbs] at hb
          rw [hlen]
          rcases List.mem_cons.mp hb with rfl | hb
          · exact ⟨hbrk.2, Nat.le_refl _, by omega⟩
          · obtain ⟨h1, h2, h3⟩ := ihb b hb
            exact ⟨h1, by omega, by omega⟩
      · have hbs : (combineGo idx cur (some t :: rest)).bs =
            (combineGo (idx + 1) (cur + t.halakhot.length) rest).bs := by
          simp [combineGo, hbrk]
        constructor
        · rw [hbs]; exact ihp
        · intro b hb
          rw [hbs] at hb
          rw [hlen]
          obtain ⟨h1, h2, h3⟩ := ihb b hb
          exact ⟨h1, by omega, by omega⟩

/-- C6 counterexample: chapter-break offsets produced by the engine are
not always within range or strictly increasing once empty chapters or
empty passage lists are involved. A spanning response whose first chapter
is empty yields the break 0, below the claimed lower bound 1; a
three-reference merge whose middle reference succeeds with zero passages
yields the breaks [2, 2], which are not strictly increasing. -/
theorem chapterBreaks_invariant_cex :
    (processTextResponse (some ⟨[⟨.nested [[], ["h"]]⟩], true⟩) none).2 = [0]
    ∧ ¬ (∀ b ∈ (processTextResponse (some ⟨[⟨.nested [[], ["h"]]⟩], true⟩) none).2, 1 ≤ b)
    ∧ (fetchMultipleHalakhot 0
        [(some ⟨[⟨"a", none, 1, true⟩, ⟨"b", none, 1, false⟩], [], some ⟨true, true⟩, 0⟩,
            ⟨true, none, none⟩),
         (some ⟨[], [], some ⟨true, true⟩, 0⟩, ⟨true, none, none⟩),
         (some ⟨[⟨"c", none, 1, true⟩], [], some ⟨true, true⟩, 0⟩,
            ⟨true, none, none⟩)]).toOption.map (fun t => t.chapterBreaks) = some [2, 2]
    ∧ ¬ ([2, 2].Pairwise (fun a b : Nat => a < b)) := by
  refine ⟨by decide, by decide, by decide, by decide⟩

/-- C6 amended: the chapter-break offsets are strictly increasing and lie
within the range 1 to len(passages) - 1 provided every structural chapter
of a spanning response is non-empty (single-reference read) and, in a
merge of two or more references, every successfully fetched reference
contributes at least one passage; failed references may occur anywhere. -/
theorem chapterBreaks_invariant_nonempty :
    (∀ hd ed : Option SefariaTextResponse,
      (∀ c ∈ spanningChapters hd ed, c ≠ []) →
        (processTextResponse hd ed).2.Pairwise (· < ·)
        ∧ ∀ b ∈ (processTextResponse hd ed).2,
            1 ≤ b ∧ b + 1 ≤ (processTextResponse hd ed).1.length)
    ∧ (∀ (now : Nat) (inputs : List (Option TextCacheEntry × NetEnv)),
        2 ≤ inputs.length →
        (inputs.all fun i => okNonempty (fetchHalakhot i.1 now i.2)) = true →
        ∀ out, fetchMultipleHalakhot now inputs = .ok out →
          out.chapterBreaks.Pairwise (· < ·)
          ∧ ∀ b ∈ out.chapterBreaks, 1 ≤ b ∧ b + 1 ≤ out.halakhot.length) := by
  constructor
  · intro hd ed h
    rcases processTextResponse_breaks_shape hd ed with hnil | ⟨hbr, hlen⟩
    · rw [hnil]
      exact ⟨List.Pairwise.nil, by intro b hb; simp at hb⟩
    · have hsz : ∀ s ∈ (spanningChapters hd ed).map List.length, 1 ≤ s := by
        intro s hsm
        obtain ⟨c, hc, rfl⟩ := List.mem_map.mp hsm
        have := h c hc
        cases hcc : c with
        | nil => exact absurd hcc this
        | cons x xs => simp
      obtain ⟨hp, hb⟩ := cumBreaks_props _ hsz
      rw [hbr, hlen]
      exact ⟨hp, hb⟩
  · intro now inputs hlen hne out hout
    match inputs, hlen with
    | a :: b :: rest, _ =>
      have hok : fetchMultipleHalakhot now (a :: b :: rest) =
          .ok { halakhot := (combineGo 0 0 ((a :: b :: rest).map fun i => (fetchHalakhot i.1 now i.2).toOption)).hs,
                chapterBreaks := (combineGo 0 0 ((a :: b :: rest).map fun i => (fetchHalakhot i.1 now i.2).toOption)).bs,
                languagesLoaded := { he := (combineGo 0 0 ((a :: b :: rest).map fun i => (fetchHalakhot i.1 now i.2).toOption)).he, en := (combineGo 0 0 ((a :: b :: rest).map fun i => (fetchHalakhot i.1 now i.2).toOption)).en } } := rfl
      rw [hok] at hout
      injection hout with hout
      subst hout
      have hne' : ∀ r ∈ (a :: b :: rest).map (fun i => (fetchHalakhot i.1 now i.2).toOption),
          ∀ t : TextResult, r = some t → t.halakhot ≠ [] := by
        intro r hr t hrt
        obtain ⟨i, hi, rfl⟩ := List.mem_map.mp hr
        have hall := List.all_eq_true.mp hne i hi
        cases hfe : fetchHalakhot i.1 now i.2 with
        | error e => rw [hfe] at hrt; simp [Except.toOption] at hrt
        | ok t2 =>
          rw [hfe] at hrt
          simp only [Except.toOption, Option.some.injEq] at hrt
          subst hrt
          rw [hfe] at hall
          simp only [okNonempty, Bool.not_eq_true'] at hall
          intro hemp
          rw [hemp] at hall
          simp at hall
      obtain ⟨hp, hbnd⟩ := combineGo_breaks _ hne' 0 0
      refine ⟨hp, ?_⟩
      intro b2 hb2
      obtain ⟨h1, _, h3⟩ := hbnd b2 hb2
      exact ⟨h1, by simpa using h3⟩

/-- C6 witness: a concrete spanning response with non-empty chapters of
sizes 1 and 2, and a concrete two-reference merge with non-empty
successful results, both satisfy the amended invariant. -/
theorem chapterBreaks_invariant_nonempty_instance :
    ((processTextResponse (some ⟨[⟨.nested [["a"], ["b", "c"]]⟩], true⟩) none).2.Pairwise (· < ·)
      ∧ ∀ b ∈ (processTextResponse (some ⟨[⟨.nested [["a"], ["b", "c"]]⟩], true⟩) none).2,
          1 ≤ b ∧ b + 1 ≤ (processTextResponse (some ⟨[⟨.nested [["a"], ["b", "c"]]⟩], true⟩) none).1.length)
    ∧ ∀ out, fetchMultipleHalakhot 0
        [(some ⟨[⟨"a", none, 1, true⟩], [], some ⟨true, true⟩, 0⟩, ⟨true, none, none⟩),
         (some ⟨[⟨"b", none, 1, true⟩], [], some ⟨true, true⟩, 0⟩, ⟨true, none, none⟩)] = .ok out →
        out.chapterBreaks.Pairwise (· < ·)
        ∧ ∀ b ∈ out.chapterBreaks, 1 ≤ b ∧ b + 1 ≤ out.halakhot.length :=
  ⟨chapterBreaks_invariant_nonempty.1 (some ⟨[⟨.nested [["a"], ["b", "c"]]⟩], true⟩) none
      (by decide),
    chapterBreaks_invariant_nonempty.2 0
      [(some ⟨[⟨"a", none, 1, true⟩], [], some ⟨true, true⟩, 0⟩, ⟨true, none, none⟩),
       (some ⟨[⟨"b", none, 1, true⟩], [], some ⟨true, true⟩, 0⟩, ⟨true, none, none⟩)]
      (by decide) (by decide)⟩

end Rambam
